import Mathlib

/-!
Shallow embedding of `src/clean_data.py` (function `finalize_property_data`
and the `__main__` block) of the Property-Prices repository.

Modelling conventions:
- A pandas cell is a `Value`: `na` is the missing sentinel (NaN), `num` a
  numeric cell (floats are modelled exactly as rationals), `str` a text cell.
- A `Row` is an association list from column names to values; a `Table`
  keeps the schema (`cols`) plus the rows, mirroring a DataFrame.
- Operations that raise `KeyError` in pandas when a column is absent are
  modelled in `Except String`; operations the source guards with
  `if col in df.columns` are total.
- `Series.median` is sort-then-middle (mean of the two middles for an even
  count, NaN for an empty/all-missing column), as pandas computes it.
- `Series.round(2)` / Python `round(x, 2)` is round-half-to-even at two
  decimal places, modelled exactly over the rationals.
- The regular expression `(\d+\s*Hours?)` of the source is implemented
  directly (leftmost match; the greedy quantifiers need no backtracking
  because the character classes digit / whitespace / letter are disjoint).
- Console printing is not modelled; file input and output are modelled by a
  map from path strings to file states (see `FS` at the end).
-/

namespace PropertyPrices

inductive Value where
  | na : Value
  | num : ℚ → Value
  | str : String → Value
  deriving DecidableEq

def Value.isNa : Value → Bool
  | .na => true
  | _ => false

abbrev Row := List (String × Value)

/-- Cell lookup in a row; absent keys read as missing (column presence is
checked at the table level, where the source checks `df.columns`). -/
def getVal : Row → String → Value
  | [], _ => .na
  | (k, v) :: rest, c => if k = c then v else getVal rest c

/-- Write a cell, appending the column at the end when new (as a pandas
column assignment does). -/
def setValRow : Row → String → Value → Row
  | [], c, v => [(c, v)]
  | (k, w) :: rest, c, v =>
    if k = c then (c, v) :: rest else (k, w) :: setValRow rest c v

structure Table where
  cols : List String
  rows : List Row
  deriving DecidableEq

/-- `df[c] = df.apply(f, axis=1)`: assign a column computed row-wise; a new
column name is appended to the schema. -/
def mapCol (t : Table) (c : String) (f : Row → Value) : Table :=
  { cols := if c ∈ t.cols then t.cols else t.cols ++ [c],
    rows := t.rows.map (fun r => setValRow r c (f r)) }

/-- The sequence of values of one column, in row order. -/
def colView (t : Table) (c : String) : List Value :=
  t.rows.map (fun r => getVal r c)

/-- `Series.fillna(fill)` on one cell: `fillna` with NaN leaves NaN, which
is the same as returning `fill` itself on a missing cell. -/
def fillCell (fill : Value) : Value → Value
  | .na => fill
  | v => v

def insertSorted (x : ℚ) : List ℚ → List ℚ
  | [] => [x]
  | y :: ys => if x ≤ y then x :: y :: ys else y :: insertSorted x ys

def sortQ : List ℚ → List ℚ
  | [] => []
  | x :: xs => insertSorted x (sortQ xs)

def toNum : Value → Option ℚ
  | .num q => some q
  | _ => none

/-- The non-missing numeric values of a column. -/
def colNums (t : Table) (c : String) : List ℚ :=
  (colView t c).filterMap toNum

/-- `Series.median()`: middle of the sorted non-missing values, mean of the
two middles for an even count, NaN when there are none. -/
def medianList (l : List ℚ) : Value :=
  if (sortQ l).length = 0 then .na
  else if (sortQ l).length % 2 = 1 then .num ((sortQ l).getD ((sortQ l).length / 2) 0)
  else .num (((sortQ l).getD ((sortQ l).length / 2 - 1) 0
    + (sortQ l).getD ((sortQ l).length / 2) 0) / 2)

def medianVal (t : Table) (c : String) : Value :=
  medianList (colNums t c)

def numerical_cols : List String :=
  ["Washrooms", "Floor_Number", "Total_Floors", "Open_Sides",
   "Plot_Length", "Plot_Breadth", "Entrance_Width_ft", "Road_Width_m"]

def categorical_cols : List String :=
  ["Property_Age", "Zoning", "Facing", "Overlooking",
   "Pantry", "Furnishing_Status", "Possession_Date"]

/-- One iteration of the numeric-imputation loop:
`if col in df.columns: df[col].fillna(df[col].median(), inplace=True)`. -/
def imputeNumCol (t : Table) (c : String) : Table :=
  if c ∈ t.cols then mapCol t c (fun r => fillCell (medianVal t c) (getVal r c)) else t

/-- One iteration of the categorical-imputation loop:
`if col in df.columns: df[col].fillna('Not Specified', inplace=True)`. -/
def imputeCatCol (t : Table) (c : String) : Table :=
  if c ∈ t.cols then mapCol t c (fun r => fillCell (.str "Not Specified") (getVal r c)) else t

def imputeNumericAll (t : Table) : Table := numerical_cols.foldl imputeNumCol t

def imputeCategoricalAll (t : Table) : Table := categorical_cols.foldl imputeCatCol t

def imputeAll (t : Table) : Table := imputeCategoricalAll (imputeNumericAll t)

/-- The `age_map` dictionary of the source. -/
def age_map (s : String) : Option ℚ :=
  if s = "New Construction" then some 0
  else if s = "Less than 5 years old" then some (5 / 2)
  else if s = "5 to 10 years old" then some (15 / 2)
  else if s = "10 to 15 years old" then some (25 / 2)
  else if s = "15 to 20 years old" then some (35 / 2)
  else if s = "Above 20 years old" then some 25
  else if s = "Not Specified" then some (-1)
  else none

/-- `Series.map(age_map)` on one cell: values that are not keys of the
dictionary (including non-strings and NaN) become NaN. -/
def mapAgeRaw : Value → Value
  | .str s =>
    match age_map s with
    | some q => .num q
    | none => .na
  | _ => .na

/-- `df['Property_Age'].map(age_map).fillna(-1)` on one cell. -/
def ageVal (v : Value) : Value := fillCell (.num (-1)) (mapAgeRaw v)

def ageTbl (t : Table) : Table :=
  mapCol t "Age_in_Years" (fun r => ageVal (getVal r "Property_Age"))

/-- Step 2 of the source; `df['Property_Age']` raises when the column is
absent (there is no existence check on this line). -/
def mapAge (t : Table) : Except String Table :=
  if "Property_Age" ∈ t.cols then .ok (ageTbl t)
  else .error "KeyError: Property_Age"

/-- ASCII whitespace as matched by the `\s` class and stripped by
`Series.str.strip()`. -/
def isWsChar (c : Char) : Bool :=
  c = ' ' || c = '\t' || c = '\n' || c = '\r' || c = '\x0b' || c = '\x0c'

/-- Match the literal `Hour` then an optional greedy `s` at the head. -/
def matchHourTail : List Char → Option (List Char)
  | 'H' :: 'o' :: 'u' :: 'r' :: rest =>
    match rest with
    | 's' :: _ => some ['H', 'o', 'u', 'r', 's']
    | _ => some ['H', 'o', 'u', 'r']
  | _ => none

/-- Match `\d+\s*Hours?` at the head of the list.  Greedy maximal munch is
exact here: digits, whitespace and `H` are pairwise disjoint classes, so
the regex engine never needs to backtrack into `\d+` or `\s*`. -/
def matchAtStart (l : List Char) : Option (List Char) :=
  let ds := l.takeWhile Char.isDigit
  let r1 := l.dropWhile Char.isDigit
  if ds.isEmpty then none
  else
    let ws := r1.takeWhile isWsChar
    let r2 := r1.dropWhile isWsChar
    match matchHourTail r2 with
    | some h => some (ds ++ ws ++ h)
    | none => none

/-- Leftmost match of `\d+\s*Hours?` (the search of `Series.str.extract`). -/
def findWater : List Char → Option (List Char)
  | [] => none
  | c :: rest =>
    match matchAtStart (c :: rest) with
    | some m => some m
    | none => findWater rest

/-- `Series.str.extract(r'(\d+\s*Hours?)')` on one cell: NaN when there is
no match or the cell is not a string. -/
def extractVal : Value → Value
  | .str s =>
    match findWater s.toList with
    | some m => .str (String.mk m)
    | none => .na
  | _ => .na

/-- `Series.str.replace(' ', '')` on one string: removes every space. -/
def removeSpaces (s : String) : String :=
  String.mk (s.toList.filter (fun c => c ≠ ' '))

/-- `Series.str.strip()` on one string. -/
def stripWs (s : String) : String :=
  String.mk (((s.toList.dropWhile isWsChar).reverse.dropWhile isWsChar).reverse)

/-- The second line of step 3 (`.str.replace(' ', '').str.strip()`) on one
cell; the string accessor yields NaN on non-strings. -/
def cleanVal : Value → Value
  | .str s => .str (stripWs (removeSpaces s))
  | _ => .na

/-- The whole of step 3 on one cell of the `Water Availability` column.
Note the fill value `"Not Specified"` is assigned first and then also goes
through the space removal of the second line. -/
def waterVal (v : Value) : Value :=
  cleanVal (fillCell (.str "Not Specified") (extractVal v))

def waterTbl (t : Table) : Table :=
  mapCol
    (mapCol t "Water_Availability_Status"
      (fun r => fillCell (.str "Not Specified") (extractVal (getVal r "Water Availability"))))
    "Water_Availability_Status"
    (fun r => cleanVal (getVal r "Water_Availability_Status"))

/-- Step 3 of the source; `df['Water Availability']` raises when the column
is absent (there is no existence check on this line). -/
def waterStatus (t : Table) : Except String Table :=
  if "Water Availability" ∈ t.cols then .ok (waterTbl t)
  else .error "KeyError: Water Availability"

def qfloor (q : ℚ) : ℤ := q.num.fdiv q.den

/-- Round half to even to an integer (the rounding of Python / numpy). -/
def roundHalfEven (q : ℚ) : ℤ :=
  let f := qfloor q
  let r := q - (f : ℚ)
  if r < 1 / 2 then f
  else if 1 / 2 < r then f + 1
  else if f % 2 = 0 then f else f + 1

/-- `round(x, 2)` modelled exactly over the rationals. -/
def round2 (q : ℚ) : ℚ := (roundHalfEven (q * 100) : ℚ) / 100

/-- `(df['Price'] / df['Area_sqft']).round(2)` on one pair of cells.
Division by zero cannot occur downstream of the row filter. -/
def divRound : Value → Value → Value
  | .num a, .num b => .num (round2 (a / b))
  | _, _ => .na

def pricePerSqft (t : Table) : Table :=
  mapCol t "Price_per_sqft" (fun r => divRound (getVal r "Price") (getVal r "Area_sqft"))

def dropped_cols : List String := ["Property_Age", "Water Availability"]

def dropColsRow (r : Row) (L : List String) : Row :=
  r.filter (fun kv => decide (kv.1 ∉ L))

/-- `df.drop(columns=L, errors='ignore')`. -/
def dropColsTable (t : Table) (L : List String) : Table :=
  { cols := t.cols.filter (fun c => decide (c ∉ L)),
    rows := t.rows.map (fun r => dropColsRow r L) }

/-- The `final_cols_order` list of the source, verbatim (28 names). -/
def final_cols_order : List String :=
  ["Property_Type", "Transaction_Type", "Location", "latitude", "longitude", "Price",
   "Area_sqft", "Price_per_sqft", "area_type", "Construction_Status",
   "Age_in_Years", "Possession_Date", "Furnishing_Status", "Zoning", "Facing",
   "Overlooking", "Pantry", "Water_Availability_Status", "Washrooms", "Floor_Number",
   "Total_Floors", "Covered_Parking", "Open_Parking", "Open_Sides", "Plot_Length",
   "Plot_Breadth", "Entrance_Width_ft", "Road_Width_m"]

def projRow (kept : List String) (r : Row) : Row :=
  kept.map (fun c => (c, getVal r c))

/-- `existing_final_cols = [c for c in final_cols_order if c in df.columns]`
followed by `df_final = df[existing_final_cols]`. -/
def reorderCols (t : Table) : Table :=
  { cols := final_cols_order.filter (fun c => decide (c ∈ t.cols)),
    rows := t.rows.map (projRow (final_cols_order.filter (fun c => decide (c ∈ t.cols)))) }

def valGtZero : Value → Bool
  | .num q => decide (0 < q)
  | _ => false

/-- `df.dropna(subset=subset)` keeps the rows whose subset cells are all
non-missing (it raises when a subset column is absent; the caller checks). -/
def dropnaRows (t : Table) (subset : List String) : List Row :=
  t.rows.filter (fun r => subset.all (fun c => !(getVal r c).isNa))

/-- Step 0 of the source: `df.dropna(subset=['Price', 'Area_sqft'])` (a
KeyError when either column is absent), then `df = df[df['Area_sqft'] > 0]`. -/
def stageA (t : Table) : Except String Table :=
  if "Price" ∈ t.cols ∧ "Area_sqft" ∈ t.cols then
    .ok { cols := t.cols,
          rows := (dropnaRows t ["Price", "Area_sqft"]).filter
            (fun r => valGtZero (getVal r "Area_sqft")) }
  else .error "KeyError: Price or Area_sqft"

/-- The combined row-filter predicate of step 0. -/
def survPred (r : Row) : Bool :=
  (!(getVal r "Price").isNa && !(getVal r "Area_sqft").isNa)
    && valGtZero (getVal r "Area_sqft")

/-- The input rows that survive the row filter, in input order. -/
def survRows (t : Table) : List Row := t.rows.filter survPred

/-- The table after all derivation steps (imputation, age mapping, water
parsing, price per square foot), before pruning and reordering. -/
def derivedTbl (a : Table) : Table := pricePerSqft (waterTbl (ageTbl (imputeAll a)))

/-- The table that is finally written out, as a function of the post-filter
table `a`: derivation, then column pruning, then selection and reordering. -/
def postTbl (a : Table) : Table :=
  reorderCols (dropColsTable (derivedTbl a) dropped_cols)

/-- The whole in-memory pipeline of `finalize_property_data`, from the
loaded table to the table that is written out.  An uncaught `KeyError`
propagates as `.error`. -/
def finalize_table (t : Table) : Except String Table :=
  match stageA t with
  | .error e => .error e
  | .ok a =>
    match mapAge (imputeAll a) with
    | .error e => .error e
    | .ok c =>
      match waterStatus c with
      | .error e => .error e
      | .ok d => .ok (reorderCols (dropColsTable (pricePerSqft d) dropped_cols))

/-- A file at a path is absent, present but unreadable, or a readable
table.  (Only absence is caught by the source; any other read failure
propagates.) -/
inductive FileState where
  | absent : FileState
  | unreadable : FileState
  | file : Table → FileState

/-- The filesystem seen by the script: a map from paths to file states. -/
abbrev FS := String → FileState

def writeFS (fs : FS) (p : String) (t : Table) : FS :=
  fun q => if q = p then .file t else fs q

/-- The whole of `finalize_property_data`: load (catching only the
file-not-found case, which prints and returns), transform, save.  The
second component is `some e` when an uncaught exception propagates; the
first component is the resulting filesystem. -/
def finalize_property_data (fs : FS) (input_csv_path output_csv_path : String) :
    FS × Option String :=
  match fs input_csv_path with
  | .absent => (fs, none)
  | .unreadable => (fs, some "read error")
  | .file t =>
    match finalize_table t with
    | .error e => (fs, some e)
    | .ok u => (writeFS fs output_csv_path u, none)

def base_dir : String :=
  "C:\\Users\\Asus\\OneDrive\\Desktop\\100 GAJ ASSIGNMENTS\\Task-5\\Property-Prices"

def INPUT_FILE : String := base_dir ++ "\\fully_cleaned_property_data.csv"

def OUTPUT_FILE : String := base_dir ++ "\\final_analysis_ready_data.csv"

def path_exists (fs : FS) (p : String) : Bool :=
  match fs p with
  | .absent => false
  | _ => true

/-- The `__main__` block: check `os.path.exists(INPUT_FILE)` and either run
the transform or just print an error message. -/
def main_run (fs : FS) : FS × Option String :=
  if path_exists fs INPUT_FILE then finalize_property_data fs INPUT_FILE OUTPUT_FILE
  else (fs, none)

/-- True when a cell is a string containing no space (U+0020) characters. -/
def noSpaceVal : Value → Bool
  | .str s => s.toList.all (fun ch => ch ≠ ' ')
  | _ => false

/-- True when a string contains a whitespace character. -/
def hasWsChar (s : String) : Bool := s.toList.any isWsChar

/-- The table of a successful run (a dummy empty table on failure); used
only to state concrete instances. -/
def forceOk : Except String Table → Table
  | .ok u => u
  | .error _ => { cols := [], rows := [] }

/-- A small concrete input table: one fully usable row (the scenario row of
the documentation), one row with a missing price, one row with a zero
area. -/
def tW : Table :=
  { cols := ["Price", "Area_sqft", "Property_Age", "Water Availability",
             "Washrooms", "Zoning"],
    rows :=
      [[("Price", .num 1000000), ("Area_sqft", .num 500),
        ("Property_Age", .str "5 to 10 years old"),
        ("Water Availability", .str "Available 12 Hours a day"),
        ("Washrooms", .num 2), ("Zoning", .na)],
       [("Price", .na), ("Area_sqft", .num 100),
        ("Property_Age", .str "New Construction"),
        ("Water Availability", .str "abc"),
        ("Washrooms", .na), ("Zoning", .str "R")],
       [("Price", .num 300), ("Area_sqft", .num 0),
        ("Property_Age", .na),
        ("Water Availability", .na),
        ("Washrooms", .num 3), ("Zoning", .na)]] }

def uW : Table := forceOk (finalize_table tW)

def aW : Table := forceOk (stageA tW)

def rW : Row := uW.rows.getD 0 []

/-- A table whose only surviving row has a missing value in the numeric
column `Washrooms`, so the column median is undefined. -/
def tC3ex : Table :=
  { cols := ["Price", "Area_sqft", "Property_Age", "Water Availability", "Washrooms"],
    rows := [[("Price", .num 100), ("Area_sqft", .num 50),
              ("Property_Age", .str "New Construction"),
              ("Water Availability", .str "24 Hours"), ("Washrooms", .na)]] }

/-- A table with a water-availability text without a match, and one whose
match contains a tab between the digits and `Hours`. -/
def tC5ex : Table :=
  { cols := ["Price", "Area_sqft", "Property_Age", "Water Availability"],
    rows :=
      [[("Price", .num 10), ("Area_sqft", .num 4),
        ("Property_Age", .str "x"), ("Water Availability", .str "abc")],
       [("Price", .num 10), ("Area_sqft", .num 4),
        ("Property_Age", .str "x"), ("Water Availability", .str "12\tHours")]] }

/-- A table in which the column `Property_Age`, expected by the age-mapping
step, is absent. -/
def tC9ex : Table :=
  { cols := ["Price", "Area_sqft", "Water Availability"],
    rows := [[("Price", .num 10), ("Area_sqft", .num 4), ("Water Availability", .na)]] }

/-- A filesystem with no files at all. -/
def fsAbsent : FS := fun _ => .absent

/-! ### Basic lemmas on rows, columns and the table operations -/

theorem map_ext_fun {α β : Type} {f g : α → β} (h : ∀ a, f a = g a) :
    ∀ l : List α, l.map f = l.map g := by
  intro l
  induction l with
  | nil => rfl
  | cons a l ih => simp [h a, ih]

theorem getVal_setValRow_self (r : Row) (c : String) (v : Value) :
    getVal (setValRow r c v) c = v := by
  induction r with
  | nil => simp [setValRow, getVal]
  | cons kv rest ih =>
    obtain ⟨k, w⟩ := kv
    by_cases h : k = c
    · simp [setValRow, h, getVal]
    · simp [setValRow, h, getVal, ih]

theorem getVal_setValRow_ne (r : Row) {c c' : String} (v : Value) (h : c' ≠ c) :
    getVal (setValRow r c v) c' = getVal r c' := by
  have hne : ¬ c = c' := fun e => h e.symm
  induction r with
  | nil => simp [setValRow, getVal, hne]
  | cons kv rest ih =>
    obtain ⟨k, w⟩ := kv
    by_cases hk : k = c
    · subst hk
      simp [setValRow, getVal, hne]
    · simp [setValRow, hk, getVal, ih]

theorem colView_mapCol_self (t : Table) (c : String) (f : Row → Value) :
    colView (mapCol t c f) c = t.rows.map f := by
  simp [colView, mapCol, List.map_map, Function.comp, getVal_setValRow_self]

theorem colView_mapCol_ne (t : Table) {c c' : String} (f : Row → Value) (h : c' ≠ c) :
    colView (mapCol t c f) c' = colView t c' := by
  simp only [colView, mapCol, List.map_map, Function.comp]
  exact map_ext_fun (fun r => getVal_setValRow_ne r (f r) h) t.rows

theorem mem_cols_mapCol {t : Table} {c c' : String} {f : Row → Value} :
    c' ∈ (mapCol t c f).cols ↔ c' ∈ t.cols ∨ c' = c := by
  unfold mapCol
  by_cases h : c ∈ t.cols
  · simp only [if_pos h]
    exact ⟨Or.inl, fun h' => h'.elim id (fun e => e ▸ h)⟩
  · simp [if_neg h]

theorem rows_mapCol (t : Table) (c : String) (f : Row → Value) :
    (mapCol t c f).rows = t.rows.map (fun r => setValRow r c (f r)) := rfl

/-! ### Imputation lemmas -/

theorem imputeNumCol_cols (t : Table) (c : String) : (imputeNumCol t c).cols = t.cols := by
  unfold imputeNumCol
  by_cases h : c ∈ t.cols
  · simp [h, mapCol]
  · simp [h]

theorem imputeCatCol_cols (t : Table) (c : String) : (imputeCatCol t c).cols = t.cols := by
  unfold imputeCatCol
  by_cases h : c ∈ t.cols
  · simp [h, mapCol]
  · simp [h]

theorem colView_imputeNumCol_ne (t : Table) {c c' : String} (h : c' ≠ c) :
    colView (imputeNumCol t c) c' = colView t c' := by
  unfold imputeNumCol
  by_cases hm : c ∈ t.cols
  · rw [if_pos hm, colView_mapCol_ne _ _ h]
  · rw [if_neg hm]

theorem colView_imputeCatCol_ne (t : Table) {c c' : String} (h : c' ≠ c) :
    colView (imputeCatCol t c) c' = colView t c' := by
  unfold imputeCatCol
  by_cases hm : c ∈ t.cols
  · rw [if_pos hm, colView_mapCol_ne _ _ h]
  · rw [if_neg hm]

theorem colView_imputeNumCol_self (t : Table) {c : String} (hc : c ∈ t.cols) :
    colView (imputeNumCol t c) c = (colView t c).map (fillCell (medianVal t c)) := by
  unfold imputeNumCol
  rw [if_pos hc, colView_mapCol_self]
  simp [colView, List.map_map, Function.comp]

theorem colView_imputeCatCol_self (t : Table) {c : String} (hc : c ∈ t.cols) :
    colView (imputeCatCol t c) c = (colView t c).map (fillCell (.str "Not Specified")) := by
  unfold imputeCatCol
  rw [if_pos hc, colView_mapCol_self]
  simp [colView, List.map_map, Function.comp]

theorem foldNum_cols (L : List String) (t : Table) :
    (L.foldl imputeNumCol t).cols = t.cols := by
  induction L generalizing t with
  | nil => rfl
  | cons x xs ih => rw [List.foldl_cons, ih, imputeNumCol_cols]

theorem foldCat_cols (L : List String) (t : Table) :
    (L.foldl imputeCatCol t).cols = t.cols := by
  induction L generalizing t with
  | nil => rfl
  | cons x xs ih => rw [List.foldl_cons, ih, imputeCatCol_cols]

theorem colView_foldNum_notMem (L : List String) (t : Table) {c : String} (h : c ∉ L) :
    colView (L.foldl imputeNumCol t) c = colView t c := by
  induction L generalizing t with
  | nil => rfl
  | cons x xs ih =>
    have hne : c ≠ x := fun e => by subst e; exact h (List.mem_cons_self _ _)
    rw [List.foldl_cons, ih _ (fun hx => h (List.mem_cons_of_mem _ hx)),
      colView_imputeNumCol_ne _ hne]

theorem colView_foldCat_notMem (L : List String) (t : Table) {c : String} (h : c ∉ L) :
    colView (L.foldl imputeCatCol t) c = colView t c := by
  induction L generalizing t with
  | nil => rfl
  | cons x xs ih =>
    have hne : c ≠ x := fun e => by subst e; exact h (List.mem_cons_self _ _)
    rw [List.foldl_cons, ih _ (fun hx => h (List.mem_cons_of_mem _ hx)),
      colView_imputeCatCol_ne _ hne]

theorem medianVal_congr {t t' : Table} {c : String} (h : colView t c = colView t' c) :
    medianVal t c = medianVal t' c := by
  unfold medianVal colNums
  rw [h]

theorem colView_foldNum_exact (L : List String) (t : Table) {c : String}
    (hc : c ∈ t.cols) (h1 : L.count c = 1) :
    colView (L.foldl imputeNumCol t) c = (colView t c).map (fillCell (medianVal t c)) := by
  induction L generalizing t with
  | nil => simp at h1
  | cons x xs ih =>
    rw [List.foldl_cons]
    by_cases hx : x = c
    · subst hx
      have hcount : xs.count x = 0 := by
        rw [List.count_cons_self] at h1
        omega
      rw [colView_foldNum_notMem xs _ (List.count_eq_zero.mp hcount),
        colView_imputeNumCol_self t hc]
    · have h1' : xs.count c = 1 := by
        rw [List.count_cons] at h1
        split_ifs at h1 with hcx
        · exact absurd (by simpa using hcx) hx
        · omega
      have hceq : colView (imputeNumCol t x) c = colView t c :=
        colView_imputeNumCol_ne t (fun e => hx e.symm)
      have hc' : c ∈ (imputeNumCol t x).cols := by rw [imputeNumCol_cols]; exact hc
      rw [ih _ hc' h1', hceq, medianVal_congr hceq]

theorem colView_foldCat_exact (L : List String) (t : Table) {c : String}
    (hc : c ∈ t.cols) (h1 : L.count c = 1) :
    colView (L.foldl imputeCatCol t) c
      = (colView t c).map (fillCell (.str "Not Specified")) := by
  induction L generalizing t with
  | nil => simp at h1
  | cons x xs ih =>
    rw [List.foldl_cons]
    by_cases hx : x = c
    · subst hx
      have hcount : xs.count x = 0 := by
        rw [List.count_cons_self] at h1
        omega
      rw [colView_foldCat_notMem xs _ (List.count_eq_zero.mp hcount),
        colView_imputeCatCol_self t hc]
    · have h1' : xs.count c = 1 := by
        rw [List.count_cons] at h1
        split_ifs at h1 with hcx
        · exact absurd (by simpa using hcx) hx
        · omega
      have hceq : colView (imputeCatCol t x) c = colView t c :=
        colView_imputeCatCol_ne t (fun e => hx e.symm)
      have hc' : c ∈ (imputeCatCol t x).cols := by rw [imputeCatCol_cols]; exact hc
      rw [ih _ hc' h1', hceq]

/-! ### Whole-imputation lemmas -/

theorem imputeAll_cols (t : Table) : (imputeAll t).cols = t.cols := by
  unfold imputeAll imputeNumericAll imputeCategoricalAll
  rw [foldCat_cols, foldNum_cols]

theorem cat_disjoint_num : ∀ c ∈ categorical_cols, c ∉ numerical_cols := by decide

theorem num_disjoint_cat : ∀ c ∈ numerical_cols, c ∉ categorical_cols := by decide

theorem count_one_of_mem_num {c : String} (h : c ∈ numerical_cols) :
    numerical_cols.count c = 1 := by
  fin_cases h <;> decide

theorem count_one_of_mem_cat {c : String} (h : c ∈ categorical_cols) :
    categorical_cols.count c = 1 := by
  fin_cases h <;> decide

theorem colView_imputeAll_notMem {t : Table} {c : String}
    (h1 : c ∉ numerical_cols) (h2 : c ∉ categorical_cols) :
    colView (imputeAll t) c = colView t c := by
  unfold imputeAll imputeNumericAll imputeCategoricalAll
  rw [colView_foldCat_notMem _ _ h2, colView_foldNum_notMem _ _ h1]

theorem colView_imputeAll_cat {t : Table} {c : String}
    (hc : c ∈ t.cols) (hcat : c ∈ categorical_cols) :
    colView (imputeAll t) c = (colView t c).map (fillCell (.str "Not Specified")) := by
  have hnum : c ∉ numerical_cols := cat_disjoint_num c hcat
  unfold imputeAll imputeNumericAll imputeCategoricalAll
  have hc' : c ∈ (numerical_cols.foldl imputeNumCol t).cols := by
    rw [foldNum_cols]; exact hc
  rw [colView_foldCat_exact _ _ hc' (count_one_of_mem_cat hcat),
    colView_foldNum_notMem _ _ hnum]

theorem colView_imputeAll_num {t : Table} {c : String}
    (hc : c ∈ t.cols) (hnum : c ∈ numerical_cols) :
    colView (imputeAll t) c = (colView t c).map (fillCell (medianVal t c)) := by
  have hcat : c ∉ categorical_cols := num_disjoint_cat c hnum
  unfold imputeAll imputeNumericAll imputeCategoricalAll
  rw [colView_foldCat_notMem _ _ hcat,
    colView_foldNum_exact _ _ hc (count_one_of_mem_num hnum)]

/-! ### Derivation-stage lemmas -/

theorem colView_ageTbl_self (t : Table) :
    colView (ageTbl t) "Age_in_Years" = (colView t "Property_Age").map ageVal := by
  unfold ageTbl
  rw [colView_mapCol_self]
  simp [colView, List.map_map, Function.comp]

theorem colView_ageTbl_ne (t : Table) {c : String} (h : c ≠ "Age_in_Years") :
    colView (ageTbl t) c = colView t c :=
  colView_mapCol_ne _ _ h

theorem mem_cols_ageTbl {t : Table} {c : String} :
    c ∈ (ageTbl t).cols ↔ c ∈ t.cols ∨ c = "Age_in_Years" :=
  mem_cols_mapCol

theorem colView_waterTbl_self (t : Table) :
    colView (waterTbl t) "Water_Availability_Status"
      = (colView t "Water Availability").map waterVal := by
  unfold waterTbl
  rw [colView_mapCol_self, rows_mapCol]
  simp [colView, List.map_map, Function.comp, getVal_setValRow_self, waterVal]

theorem colView_waterTbl_ne (t : Table) {c : String} (h : c ≠ "Water_Availability_Status") :
    colView (waterTbl t) c = colView t c := by
  unfold waterTbl
  rw [colView_mapCol_ne _ _ h, colView_mapCol_ne _ _ h]

theorem mem_cols_waterTbl {t : Table} {c : String} :
    c ∈ (waterTbl t).cols ↔ c ∈ t.cols ∨ c = "Water_Availability_Status" := by
  unfold waterTbl
  rw [mem_cols_mapCol, mem_cols_mapCol]
  tauto

theorem colView_pricePerSqft_self (t : Table) :
    colView (pricePerSqft t) "Price_per_sqft"
      = t.rows.map (fun r => divRound (getVal r "Price") (getVal r "Area_sqft")) := by
  unfold pricePerSqft
  rw [colView_mapCol_self]

theorem colView_pricePerSqft_ne (t : Table) {c : String} (h : c ≠ "Price_per_sqft") :
    colView (pricePerSqft t) c = colView t c :=
  colView_mapCol_ne _ _ h

theorem mem_cols_pricePerSqft {t : Table} {c : String} :
    c ∈ (pricePerSqft t).cols ↔ c ∈ t.cols ∨ c = "Price_per_sqft" :=
  mem_cols_mapCol

/-! ### Pruning and reordering lemmas -/

theorem getVal_dropColsRow {L : List String} {c : String} (h : c ∉ L) :
    ∀ r : Row, getVal (dropColsRow r L) c = getVal r c := by
  intro r
  induction r with
  | nil => rfl
  | cons kv rest ih =>
    obtain ⟨k, w⟩ := kv
    by_cases hk : k ∈ L
    · have hkc : ¬ k = c := fun e => h (e ▸ hk)
      simp [dropColsRow, List.filter_cons, hk, getVal, hkc] at *
      exact ih
    · simp [dropColsRow, List.filter_cons, hk, getVal] at *
      rw [ih]

theorem colView_dropColsTable {t : Table} {L : List String} {c : String} (h : c ∉ L) :
    colView (dropColsTable t L) c = colView t c := by
  unfold dropColsTable colView
  simp only [List.map_map, Function.comp]
  exact map_ext_fun (fun r => getVal_dropColsRow h r) t.rows

theorem mem_cols_dropColsTable {t : Table} {L : List String} {c : String} :
    c ∈ (dropColsTable t L).cols ↔ c ∈ t.cols ∧ c ∉ L := by
  simp [dropColsTable, List.mem_filter]

theorem getVal_projRow {kept : List String} {c : String} (h : c ∈ kept) (r : Row) :
    getVal (projRow kept r) c = getVal r c := by
  induction kept with
  | nil => cases h
  | cons k ks ih =>
    rcases List.mem_cons.mp h with he | hm
    · subst he
      simp [projRow, getVal]
    · by_cases hk : k = c
      · subst hk
        simp [projRow, getVal]
      · have hrec := ih hm
        simp only [projRow] at hrec ⊢
        simp [getVal, hk, hrec]

theorem reorderCols_cols (t : Table) :
    (reorderCols t).cols = final_cols_order.filter (fun c => decide (c ∈ t.cols)) := rfl

theorem colView_reorderCols {t : Table} {c : String}
    (h7 : c ∈ final_cols_order) (hc : c ∈ t.cols) :
    colView (reorderCols t) c = colView t c := by
  have hkept : c ∈ final_cols_order.filter (fun c => decide (c ∈ t.cols)) :=
    List.mem_filter.mpr ⟨h7, by simpa using hc⟩
  unfold reorderCols colView
  simp only [List.map_map, Function.comp]
  exact map_ext_fun (fun r => getVal_projRow hkept r) t.rows

/-! ### Derived-table and final-table lemmas -/

theorem mem_cols_derivedTbl {a : Table} {c : String} :
    c ∈ (derivedTbl a).cols ↔
      c ∈ a.cols ∨ c = "Age_in_Years" ∨ c = "Water_Availability_Status"
        ∨ c = "Price_per_sqft" := by
  unfold derivedTbl
  rw [mem_cols_pricePerSqft, mem_cols_waterTbl, mem_cols_ageTbl, imputeAll_cols]
  tauto

theorem colView_derived_eq_imputeAll {a : Table} {c : String}
    (h3 : c ≠ "Age_in_Years") (h4 : c ≠ "Water_Availability_Status")
    (h5 : c ≠ "Price_per_sqft") :
    colView (derivedTbl a) c = colView (imputeAll a) c := by
  unfold derivedTbl
  rw [colView_pricePerSqft_ne _ h5, colView_waterTbl_ne _ h4, colView_ageTbl_ne _ h3]

theorem colView_postTbl_of_derived {a : Table} {c : String}
    (hd : c ∈ (derivedTbl a).cols) (h6 : c ∉ dropped_cols) (h7 : c ∈ final_cols_order) :
    colView (postTbl a) c = colView (derivedTbl a) c := by
  unfold postTbl
  rw [colView_reorderCols h7 (mem_cols_dropColsTable.mpr ⟨hd, h6⟩), colView_dropColsTable h6]

theorem colView_postTbl_pres {a : Table} {c : String}
    (hc : c ∈ a.cols) (h1 : c ∉ numerical_cols) (h2 : c ∉ categorical_cols)
    (h3 : c ≠ "Age_in_Years") (h4 : c ≠ "Water_Availability_Status")
    (h5 : c ≠ "Price_per_sqft") (h6 : c ∉ dropped_cols) (h7 : c ∈ final_cols_order) :
    colView (postTbl a) c = colView a c := by
  have hd : c ∈ (derivedTbl a).cols := mem_cols_derivedTbl.mpr (Or.inl hc)
  rw [colView_postTbl_of_derived hd h6 h7, colView_derived_eq_imputeAll h3 h4 h5,
    colView_imputeAll_notMem h1 h2]

theorem colView_postTbl_age (a : Table) :
    colView (postTbl a) "Age_in_Years"
      = (colView (imputeAll a) "Property_Age").map ageVal := by
  have hd : "Age_in_Years" ∈ (derivedTbl a).cols := mem_cols_derivedTbl.mpr (by tauto)
  rw [colView_postTbl_of_derived hd (by decide) (by decide)]
  unfold derivedTbl
  rw [colView_pricePerSqft_ne _ (by decide), colView_waterTbl_ne _ (by decide),
    colView_ageTbl_self]

theorem colView_postTbl_water (a : Table) :
    colView (postTbl a) "Water_Availability_Status"
      = (colView (ageTbl (imputeAll a)) "Water Availability").map waterVal := by
  have hd : "Water_Availability_Status" ∈ (derivedTbl a).cols :=
    mem_cols_derivedTbl.mpr (by tauto)
  rw [colView_postTbl_of_derived hd (by decide) (by decide)]
  unfold derivedTbl
  rw [colView_pricePerSqft_ne _ (by decide), colView_waterTbl_self]

theorem colView_postTbl_pps (a : Table) :
    colView (postTbl a) "Price_per_sqft"
      = (waterTbl (ageTbl (imputeAll a))).rows.map
          (fun r => divRound (getVal r "Price") (getVal r "Area_sqft")) := by
  have hd : "Price_per_sqft" ∈ (derivedTbl a).cols := mem_cols_derivedTbl.mpr (by tauto)
  rw [colView_postTbl_of_derived hd (by decide) (by decide)]
  unfold derivedTbl
  rw [colView_pricePerSqft_self]

theorem colView_waterStage_pres {a : Table} {c : String}
    (h1 : c ∉ numerical_cols) (h2 : c ∉ categorical_cols)
    (h3 : c ≠ "Age_in_Years") (h4 : c ≠ "Water_Availability_Status") :
    colView (waterTbl (ageTbl (imputeAll a))) c = colView a c := by
  rw [colView_waterTbl_ne _ h4, colView_ageTbl_ne _ h3, colView_imputeAll_notMem h1 h2]

/-! ### Pipeline decomposition -/

theorem filter_filter_seq {α : Type} (p q : α → Bool) (l : List α) :
    (l.filter p).filter q = l.filter (fun a => p a && q a) := by
  induction l with
  | nil => rfl
  | cons a l ih =>
    by_cases hp : p a
    · by_cases hq : q a
      · simp [List.filter_cons, hp, hq, ih]
      · simp [List.filter_cons, hp, hq, ih]
    · simp [List.filter_cons, hp, ih]

theorem stageA_ok_elim {t a : Table} (h : stageA t = .ok a) :
    a.cols = t.cols ∧ a.rows = survRows t ∧ "Price" ∈ t.cols ∧ "Area_sqft" ∈ t.cols := by
  unfold stageA at h
  by_cases hm : "Price" ∈ t.cols ∧ "Area_sqft" ∈ t.cols
  · rw [if_pos hm] at h
    have ha := Except.ok.inj h
    refine ⟨by rw [← ha], ?_, hm.1, hm.2⟩
    rw [← ha]
    show ((dropnaRows t ["Price", "Area_sqft"]).filter
      (fun r => valGtZero (getVal r "Area_sqft"))) = survRows t
    unfold dropnaRows survRows
    rw [filter_filter_seq]
    apply List.filter_congr
    intro r _
    simp [survPred, List.all_cons, List.all_nil, Bool.and_true]
  · rw [if_neg hm] at h
    exact Except.noConfusion h

theorem stageA_err {t : Table} (h : ¬ ("Price" ∈ t.cols ∧ "Area_sqft" ∈ t.cols)) :
    stageA t = .error "KeyError: Price or Area_sqft" := by
  unfold stageA
  rw [if_neg h]

theorem mapAge_ok {t : Table} (h : "Property_Age" ∈ t.cols) :
    mapAge t = .ok (ageTbl t) := by
  unfold mapAge
  rw [if_pos h]

theorem mapAge_err {t : Table} (h : "Property_Age" ∉ t.cols) :
    mapAge t = .error "KeyError: Property_Age" := by
  unfold mapAge
  rw [if_neg h]

theorem waterStatus_ok {t : Table} (h : "Water Availability" ∈ t.cols) :
    waterStatus t = .ok (waterTbl t) := by
  unfold waterStatus
  rw [if_pos h]

theorem waterStatus_err {t : Table} (h : "Water Availability" ∉ t.cols) :
    waterStatus t = .error "KeyError: Water Availability" := by
  unfold waterStatus
  rw [if_neg h]

theorem finalize_table_ok {t a : Table} (hA : stageA t = .ok a)
    (hPA : "Property_Age" ∈ (imputeAll a).cols)
    (hWA : "Water Availability" ∈ (ageTbl (imputeAll a)).cols) :
    finalize_table t = .ok (postTbl a) := by
  simp only [finalize_table, hA, mapAge_ok hPA, waterStatus_ok hWA]
  rfl

theorem finalize_table_errA {t : Table} {e : String} (hA : stageA t = .error e) :
    finalize_table t = .error e := by
  simp only [finalize_table, hA]

theorem finalize_table_err2 {t a : Table} (hA : stageA t = .ok a)
    (hPA : "Property_Age" ∉ (imputeAll a).cols) :
    finalize_table t = .error "KeyError: Property_Age" := by
  simp only [finalize_table, hA, mapAge_err hPA]

theorem finalize_table_err3 {t a : Table} (hA : stageA t = .ok a)
    (hPA : "Property_Age" ∈ (imputeAll a).cols)
    (hWA : "Water Availability" ∉ (ageTbl (imputeAll a)).cols) :
    finalize_table t = .error "KeyError: Water Availability" := by
  simp only [finalize_table, hA, mapAge_ok hPA, waterStatus_err hWA]

theorem finalize_ok_elim {t u : Table} (h : finalize_table t = .ok u) :
    ∃ a, stageA t = .ok a ∧ u = postTbl a := by
  cases hA : stageA t with
  | error e =>
    rw [finalize_table_errA hA] at h
    exact Except.noConfusion h
  | ok a =>
    by_cases hPA : "Property_Age" ∈ (imputeAll a).cols
    · by_cases hWA : "Water Availability" ∈ (ageTbl (imputeAll a)).cols
      · rw [finalize_table_ok hA hPA hWA] at h
        exact ⟨a, rfl, (Except.ok.inj h).symm⟩
      · rw [finalize_table_err3 hA hPA hWA] at h
        exact Except.noConfusion h
    · rw [finalize_table_err2 hA hPA] at h
      exact Except.noConfusion h

/-! ### Value-level lemmas -/

theorem fillCell_isNa_false {fill : Value} (h : fill.isNa = false) :
    ∀ v, (fillCell fill v).isNa = false := by
  intro v
  cases v with
  | na => simpa [fillCell] using h
  | num q => rfl
  | str s => rfl

theorem ageVal_of_key {s : String} {q : ℚ} (h : age_map s = some q) :
    ageVal (.str s) = .num q := by
  simp [ageVal, mapAgeRaw, h, fillCell]

theorem ageVal_of_nonkey {s : String} (h : age_map s = none) :
    ageVal (.str s) = .num (-1) := by
  simp [ageVal, mapAgeRaw, h, fillCell]

theorem ageVal_of_nonstring : ∀ v : Value, mapAgeRaw v = .na → ageVal v = .num (-1) := by
  intro v h
  simp [ageVal, h, fillCell]

theorem ageVal_cases : ∀ v : Value, ageVal v ∈
    ([.num 0, .num (5 / 2), .num (15 / 2), .num (25 / 2), .num (35 / 2),
      .num 25, .num (-1)] : List Value) := by
  intro v
  cases v with
  | na => simp [ageVal, mapAgeRaw, fillCell]
  | num q => simp [ageVal, mapAgeRaw, fillCell]
  | str s =>
    simp only [ageVal, mapAgeRaw, age_map]
    split_ifs <;> simp [fillCell]

theorem mem_toList_stripWs {s : String} {ch : Char} (h : ch ∈ (stripWs s).toList) :
    ch ∈ s.toList := by
  have h1 : ch ∈ (((s.toList.dropWhile isWsChar).reverse.dropWhile isWsChar).reverse) := h
  rw [List.mem_reverse] at h1
  have h2 : ch ∈ (s.toList.dropWhile isWsChar).reverse :=
    (List.dropWhile_sublist _).subset h1
  rw [List.mem_reverse] at h2
  exact (List.dropWhile_sublist _).subset h2

theorem noSpace_removeSpaces (s : String) :
    (removeSpaces s).toList.all (fun ch => ch ≠ ' ') = true := by
  rw [List.all_eq_true]
  intro ch hch
  have h1 : ch ∈ s.toList.filter (fun c => decide (c ≠ ' ')) := hch
  simpa using (List.mem_filter.mp h1).2

theorem noSpaceVal_cleanVal_str (s : String) :
    noSpaceVal (cleanVal (.str s)) = true := by
  unfold cleanVal noSpaceVal
  rw [List.all_eq_true]
  intro ch hch
  have h1 : ch ∈ (removeSpaces s).toList := mem_toList_stripWs hch
  have h2 := noSpace_removeSpaces s
  rw [List.all_eq_true] at h2
  exact h2 ch h1

theorem noSpaceVal_waterVal : ∀ v : Value, noSpaceVal (waterVal v) = true := by
  intro v
  cases v with
  | na => exact noSpaceVal_cleanVal_str "Not Specified"
  | num q => exact noSpaceVal_cleanVal_str "Not Specified"
  | str s =>
    cases hf : findWater s.toList with
    | none =>
      have he : waterVal (.str s) = cleanVal (.str "Not Specified") := by
        simp only [waterVal, extractVal, hf, fillCell]
      rw [he]
      exact noSpaceVal_cleanVal_str _
    | some m =>
      have he : waterVal (.str s) = cleanVal (.str (String.mk m)) := by
        simp only [waterVal, extractVal, hf, fillCell]
      rw [he]
      exact noSpaceVal_cleanVal_str _

theorem waterVal_no_match {s : String} (h : extractVal (.str s) = .na) :
    waterVal (.str s) = .str "NotSpecified" := by
  unfold waterVal
  rw [h]
  rfl

theorem waterVal_match {s : String} {m : List Char} (h : findWater s.toList = some m) :
    waterVal (.str s)
      = .str (stripWs (String.mk (m.filter (fun ch => decide (ch ≠ ' '))))) := by
  have he : extractVal (.str s) = .str (String.mk m) := by
    simp only [extractVal, h]
  unfold waterVal
  rw [he]
  rfl

theorem insertSorted_length (x : ℚ) (l : List ℚ) :
    (insertSorted x l).length = l.length + 1 := by
  induction l with
  | nil => rfl
  | cons y ys ih =>
    by_cases h : x ≤ y
    · simp [insertSorted, h]
    · simp [insertSorted, h, ih]

theorem sortQ_length (l : List ℚ) : (sortQ l).length = l.length := by
  induction l with
  | nil => rfl
  | cons x xs ih => simp [sortQ, insertSorted_length, ih]

theorem medianList_isNum {l : List ℚ} (h : l ≠ []) :
    ∃ m : ℚ, medianList l = .num m := by
  unfold medianList
  have hlen : ¬ (sortQ l).length = 0 := by
    rw [sortQ_length]
    simpa using h
  rw [if_neg hlen]
  by_cases hodd : (sortQ l).length % 2 = 1
  · rw [if_pos hodd]
    exact ⟨_, rfl⟩
  · rw [if_neg hodd]
    exact ⟨_, rfl⟩

theorem mem_colView_of_mem_rows {t : Table} {c : String} {r : Row} (h : r ∈ t.rows) :
    getVal r c ∈ colView t c :=
  List.mem_map_of_mem _ h

theorem survRows_pred {t : Table} {r : Row} (h : r ∈ survRows t) : survPred r = true :=
  List.of_mem_filter h

/-! ### Claim theorems -/

/-- C1: for every input table, every row of the output table has a
non-missing Price, a non-missing Area_sqft, and Area_sqft strictly greater
than 0; rows violating any of these are removed by the row filter and are
absent from the output. -/
theorem claim_C1_row_filter_invariant (t u : Table) (hu : finalize_table t = .ok u) :
    ∀ r ∈ u.rows,
      (getVal r "Price").isNa = false ∧ (getVal r "Area_sqft").isNa = false ∧
        valGtZero (getVal r "Area_sqft") = true := by
  obtain ⟨a, hA, hpost⟩ := finalize_ok_elim hu
  obtain ⟨hcols, hrows, hP, hAr⟩ := stageA_ok_elim hA
  subst hpost
  have hPa : "Price" ∈ a.cols := by rw [hcols]; exact hP
  have hAa : "Area_sqft" ∈ a.cols := by rw [hcols]; exact hAr
  have hviewP : colView (postTbl a) "Price" = colView a "Price" :=
    colView_postTbl_pres hPa (by decide) (by decide) (by decide) (by decide)
      (by decide) (by decide) (by decide)
  have hviewA : colView (postTbl a) "Area_sqft" = colView a "Area_sqft" :=
    colView_postTbl_pres hAa (by decide) (by decide) (by decide) (by decide)
      (by decide) (by decide) (by decide)
  intro r hr
  have hmemP : getVal r "Price" ∈ colView a "Price" := by
    rw [← hviewP]
    exact mem_colView_of_mem_rows hr
  have hmemA : getVal r "Area_sqft" ∈ colView a "Area_sqft" := by
    rw [← hviewA]
    exact mem_colView_of_mem_rows hr
  unfold colView at hmemP hmemA
  rw [hrows] at hmemP hmemA
  obtain ⟨rs, hrs, heq⟩ := List.mem_map.mp hmemP
  obtain ⟨rs2, hrs2, heq2⟩ := List.mem_map.mp hmemA
  have hpred := survRows_pred hrs
  have hpred2 := survRows_pred hrs2
  unfold survPred at hpred hpred2
  simp only [Bool.and_eq_true, Bool.not_eq_true'] at hpred hpred2
  exact ⟨heq ▸ hpred.1.1, heq2 ▸ hpred2.1.2, heq2 ▸ hpred2.2⟩

/-- C10: the rows surviving the filter appear in the output in the same
relative order as in the input, and the output Price and Area_sqft columns
equal, value for value, those of the surviving input rows. -/
theorem claim_C10_row_preservation (t u : Table) (hu : finalize_table t = .ok u) :
    colView u "Price" = (survRows t).map (fun r => getVal r "Price") ∧
      colView u "Area_sqft" = (survRows t).map (fun r => getVal r "Area_sqft") ∧
      u.rows.length = (survRows t).length := by
  obtain ⟨a, hA, hpost⟩ := finalize_ok_elim hu
  obtain ⟨hcols, hrows, hP, hAr⟩ := stageA_ok_elim hA
  subst hpost
  have hPa : "Price" ∈ a.cols := by rw [hcols]; exact hP
  have hAa : "Area_sqft" ∈ a.cols := by rw [hcols]; exact hAr
  have hviewP : colView (postTbl a) "Price" = colView a "Price" :=
    colView_postTbl_pres hPa (by decide) (by decide) (by decide) (by decide)
      (by decide) (by decide) (by decide)
  have hviewA : colView (postTbl a) "Area_sqft" = colView a "Area_sqft" :=
    colView_postTbl_pres hAa (by decide) (by decide) (by decide) (by decide)
      (by decide) (by decide) (by decide)
  have e1 : colView a "Price" = (survRows t).map (fun r => getVal r "Price") := by
    unfold colView
    rw [hrows]
  have e2 : colView a "Area_sqft" = (survRows t).map (fun r => getVal r "Area_sqft") := by
    unfold colView
    rw [hrows]
  refine ⟨by rw [hviewP, e1], by rw [hviewA, e2], ?_⟩
  have hlen : (colView (postTbl a) "Price").length = (postTbl a).rows.length := by
    unfold colView
    rw [List.length_map]
  rw [← hlen, hviewP, e1, List.length_map]

/-- C2: for every output row, the Price_per_sqft field is the row's Price
divided by its Area_sqft, rounded to 2 decimal places (exactly, in the
rational model of the floating-point computation). -/
theorem claim_C2_price_per_sqft (t u : Table) (hu : finalize_table t = .ok u) :
    (∀ r ∈ u.rows,
        getVal r "Price_per_sqft" = divRound (getVal r "Price") (getVal r "Area_sqft")) ∧
      ∀ p q : ℚ, divRound (.num p) (.num q) = .num (round2 (p / q)) := by
  constructor
  · obtain ⟨a, hA, hpost⟩ := finalize_ok_elim hu
    subst hpost
    have hPW : colView (waterTbl (ageTbl (imputeAll a))) "Price" = colView a "Price" :=
      colView_waterStage_pres (by decide) (by decide) (by decide) (by decide)
    have hAW : colView (waterTbl (ageTbl (imputeAll a))) "Area_sqft"
        = colView a "Area_sqft" :=
      colView_waterStage_pres (by decide) (by decide) (by decide) (by decide)
    obtain ⟨hcols, hrows, hP, hAr⟩ := stageA_ok_elim hA
    have hPa : "Price" ∈ a.cols := by rw [hcols]; exact hP
    have hAa : "Area_sqft" ∈ a.cols := by rw [hcols]; exact hAr
    have hviewP : colView (postTbl a) "Price"
        = colView (waterTbl (ageTbl (imputeAll a))) "Price" := by
      rw [hPW]
      exact colView_postTbl_pres hPa (by decide) (by decide) (by decide) (by decide)
        (by decide) (by decide) (by decide)
    have hviewA : colView (postTbl a) "Area_sqft"
        = colView (waterTbl (ageTbl (imputeAll a))) "Area_sqft" := by
      rw [hAW]
      exact colView_postTbl_pres hAa (by decide) (by decide) (by decide) (by decide)
        (by decide) (by decide) (by decide)
    intro r hr
    obtain ⟨i, hi⟩ := List.get?_of_mem hr
    have h1 : (colView (postTbl a) "Price_per_sqft").get? i
        = some (getVal r "Price_per_sqft") := by
      unfold colView
      rw [List.get?_map, hi]
      rfl
    rw [colView_postTbl_pps, List.get?_map] at h1
    cases hwi : (waterTbl (ageTbl (imputeAll a))).rows.get? i with
    | none =>
      rw [hwi] at h1
      exact Option.noConfusion h1
    | some s0 =>
      rw [hwi] at h1
      have h1' := Option.some.inj h1
      have h2 : (colView (postTbl a) "Price").get? i = some (getVal r "Price") := by
        unfold colView
        rw [List.get?_map, hi]
        rfl
      rw [hviewP] at h2
      unfold colView at h2
      rw [List.get?_map, hwi] at h2
      have h2' := Option.some.inj h2
      have h3 : (colView (postTbl a) "Area_sqft").get? i = some (getVal r "Area_sqft") := by
        unfold colView
        rw [List.get?_map, hi]
        rfl
      rw [hviewA] at h3
      unfold colView at h3
      rw [List.get?_map, hwi] at h3
      have h3' := Option.some.inj h3
      have e1 : divRound (getVal s0 "Price") (getVal s0 "Area_sqft")
          = getVal r "Price_per_sqft" := h1'
      have e2 : getVal s0 "Price" = getVal r "Price" := h2'
      have e3 : getVal s0 "Area_sqft" = getVal r "Area_sqft" := h3'
      rw [← e1, e2, e3]
  · intro p q
    rfl

theorem cat_not_derived : ∀ c ∈ categorical_cols,
    ¬(c = "Age_in_Years" ∨ c = "Water_Availability_Status" ∨ c = "Price_per_sqft") := by
  decide

theorem num_not_derived : ∀ c ∈ numerical_cols,
    ¬(c = "Age_in_Years" ∨ c = "Water_Availability_Status" ∨ c = "Price_per_sqft") := by
  decide

theorem final_not_dropped : ∀ c ∈ final_cols_order, c ∉ dropped_cols := by decide

theorem mem_postTbl_cols_elim {a : Table} {c : String} (h : c ∈ (postTbl a).cols) :
    c ∈ final_cols_order ∧ c ∈ (derivedTbl a).cols ∧ c ∉ dropped_cols := by
  unfold postTbl at h
  rw [reorderCols_cols] at h
  have h2 := List.mem_filter.mp h
  have h3 : c ∈ (dropColsTable (derivedTbl a) dropped_cols).cols := by simpa using h2.2
  have h4 := mem_cols_dropColsTable.mp h3
  exact ⟨h2.1, h4.1, h4.2⟩

/-- C7: after processing, every column of the fixed categorical set that is
present has no missing values: the column is the post-filter column with
every missing cell replaced by the literal string "Not Specified". -/
theorem claim_C7_categorical_imputation (t a u : Table) (hA : stageA t = .ok a)
    (hu : finalize_table t = .ok u) :
    ∀ c ∈ categorical_cols, c ∈ u.cols →
      colView u c = (colView a c).map (fillCell (.str "Not Specified")) ∧
        ∀ r ∈ u.rows, (getVal r c).isNa = false := by
  obtain ⟨a2, hA2, hpost⟩ := finalize_ok_elim hu
  rw [hA] at hA2
  obtain rfl : a = a2 := Except.ok.inj hA2
  subst hpost
  intro c hcat hcu
  obtain ⟨hfin, hder, hnd⟩ := mem_postTbl_cols_elim hcu
  have hnotd := cat_not_derived c hcat
  have hca : c ∈ a.cols := by
    rcases mem_cols_derivedTbl.mp hder with h | h
    · exact h
    · exact absurd h hnotd
  have hview : colView (postTbl a) c
      = (colView a c).map (fillCell (.str "Not Specified")) := by
    rw [colView_postTbl_of_derived hder hnd hfin,
      colView_derived_eq_imputeAll (fun e => hnotd (Or.inl e))
        (fun e => hnotd (Or.inr (Or.inl e))) (fun e => hnotd (Or.inr (Or.inr e))),
      colView_imputeAll_cat hca hcat]
  refine ⟨hview, ?_⟩
  intro r hr
  have hmem : getVal r c ∈ colView (postTbl a) c := mem_colView_of_mem_rows hr
  rw [hview] at hmem
  obtain ⟨v, hv, heq⟩ := List.mem_map.mp hmem
  rw [← heq]
  exact @fillCell_isNa_false (Value.str "Not Specified") rfl v

/-- C3 (amended): every numeric column of the fixed set that is present is
the post-filter column with every missing cell replaced by the median of
the post-filter column; when the column has at least one non-missing value
the result has no missing values (an all-missing column keeps its missing
values, because the median is then itself missing). -/
theorem claim_C3_numeric_imputation_amended (t a u : Table) (hA : stageA t = .ok a)
    (hu : finalize_table t = .ok u) :
    ∀ c ∈ numerical_cols, c ∈ u.cols →
      colView u c = (colView a c).map (fillCell (medianVal a c)) ∧
        (colNums a c ≠ [] → ∀ r ∈ u.rows, (getVal r c).isNa = false) := by
  obtain ⟨a2, hA2, hpost⟩ := finalize_ok_elim hu
  rw [hA] at hA2
  obtain rfl : a = a2 := Except.ok.inj hA2
  subst hpost
  intro c hnum hcu
  obtain ⟨hfin, hder, hnd⟩ := mem_postTbl_cols_elim hcu
  have hnotd := num_not_derived c hnum
  have hca : c ∈ a.cols := by
    rcases mem_cols_derivedTbl.mp hder with h | h
    · exact h
    · exact absurd h hnotd
  have hview : colView (postTbl a) c = (colView a c).map (fillCell (medianVal a c)) := by
    rw [colView_postTbl_of_derived hder hnd hfin,
      colView_derived_eq_imputeAll (fun e => hnotd (Or.inl e))
        (fun e => hnotd (Or.inr (Or.inl e))) (fun e => hnotd (Or.inr (Or.inr e))),
      colView_imputeAll_num hca hnum]
  refine ⟨hview, ?_⟩
  intro hne r hr
  obtain ⟨m, hm⟩ := medianList_isNum hne
  have hmv : medianVal a c = .num m := hm
  have hmem : getVal r c ∈ colView (postTbl a) c := mem_colView_of_mem_rows hr
  rw [hview, hmv] at hmem
  obtain ⟨v, hv, heq⟩ := List.mem_map.mp hmem
  rw [← heq]
  exact @fillCell_isNa_false (Value.num m) rfl v

/-- C4: every output Age_in_Years value is one of the seven values 0, 2.5,
7.5, 12.5, 17.5, 25, -1; keys of the lookup table map to their listed
numbers and every other value (non-keys, non-strings, missing) maps
to -1. -/
theorem claim_C4_age_mapping (t u : Table) (hu : finalize_table t = .ok u) :
    (∀ r ∈ u.rows, getVal r "Age_in_Years" ∈
        ([.num 0, .num (5 / 2), .num (15 / 2), .num (25 / 2), .num (35 / 2),
          .num 25, .num (-1)] : List Value)) ∧
      (∀ (s : String) (q : ℚ), age_map s = some q → ageVal (.str s) = .num q) ∧
      (∀ s : String, age_map s = none → ageVal (.str s) = .num (-1)) ∧
      (∀ v : Value, mapAgeRaw v = .na → ageVal v = .num (-1)) := by
  refine ⟨?_, fun s q h => ageVal_of_key h, fun s h => ageVal_of_nonkey h,
    fun v h => ageVal_of_nonstring v h⟩
  obtain ⟨a, hA, hpost⟩ := finalize_ok_elim hu
  subst hpost
  intro r hr
  have hmem : getVal r "Age_in_Years" ∈ colView (postTbl a) "Age_in_Years" :=
    mem_colView_of_mem_rows hr
  rw [colView_postTbl_age] at hmem
  obtain ⟨v, hv, heq⟩ := List.mem_map.mp hmem
  rw [← heq]
  exact ageVal_cases v

/-- C5 (amended): the output status column is the post-filter Water
Availability column mapped through extraction (match of one or more
digits, optional whitespace, Hour or Hours), with the no-match fill value
"Not Specified" also passing through the space removal, hence
"NotSpecified"; space (U+0020) characters are removed everywhere, so no
status value contains a space, though non-space whitespace inside a match
(e.g. a tab) survives. -/
theorem claim_C5_water_status_amended (t a u : Table) (hA : stageA t = .ok a)
    (hu : finalize_table t = .ok u) :
    colView u "Water_Availability_Status"
        = (colView a "Water Availability").map waterVal ∧
      (∀ s : String, extractVal (.str s) = .na → waterVal (.str s) = .str "NotSpecified") ∧
      (∀ (s : String) (m : List Char), findWater s.toList = some m →
        waterVal (.str s)
          = .str (stripWs (String.mk (m.filter (fun ch => decide (ch ≠ ' ')))))) ∧
      (∀ v : Value, noSpaceVal (waterVal v) = true) ∧
      ∀ r ∈ u.rows, noSpaceVal (getVal r "Water_Availability_Status") = true := by
  obtain ⟨a2, hA2, hpost⟩ := finalize_ok_elim hu
  rw [hA] at hA2
  obtain rfl : a = a2 := Except.ok.inj hA2
  subst hpost
  have hview : colView (postTbl a) "Water_Availability_Status"
      = (colView a "Water Availability").map waterVal := by
    rw [colView_postTbl_water, colView_ageTbl_ne _ (by decide),
      colView_imputeAll_notMem (by decide) (by decide)]
  refine ⟨hview, fun s h => waterVal_no_match h, fun s m h => waterVal_match h,
    noSpaceVal_waterVal, ?_⟩
  intro r hr
  have hmem : getVal r "Water_Availability_Status"
      ∈ colView (postTbl a) "Water_Availability_Status" := mem_colView_of_mem_rows hr
  rw [hview] at hmem
  obtain ⟨v, hv, heq⟩ := List.mem_map.mp hmem
  rw [← heq]
  exact noSpaceVal_waterVal v

/-- C6 (amended): the output column list is exactly those names of the
fixed canonical list that are present after derivation, in the canonical
relative order, and Property_Age and Water Availability never appear; the
canonical list has 28 names (not 27). -/
theorem claim_C6_columns_amended (t a u : Table) (hA : stageA t = .ok a)
    (hu : finalize_table t = .ok u) :
    u.cols = final_cols_order.filter (fun c => decide (c ∈ (derivedTbl a).cols)) ∧
      "Property_Age" ∉ u.cols ∧ "Water Availability" ∉ u.cols ∧
      final_cols_order.length = 28 := by
  obtain ⟨a2, hA2, hpost⟩ := finalize_ok_elim hu
  rw [hA] at hA2
  obtain rfl : a = a2 := Except.ok.inj hA2
  subst hpost
  refine ⟨?_, ?_, ?_, by decide⟩
  · unfold postTbl
    rw [reorderCols_cols]
    apply List.filter_congr
    intro c hc
    have hnd : c ∉ dropped_cols := final_not_dropped c hc
    rw [decide_eq_decide, mem_cols_dropColsTable]
    simp [hnd]
  · intro hmem
    exact absurd (mem_postTbl_cols_elim hmem).1 (by decide)
  · intro hmem
    exact absurd (mem_postTbl_cols_elim hmem).1 (by decide)

/-- C8: a missing input file is caught: the function prints and returns
without writing anything (the filesystem is unchanged), and in the default
invocation mode a non-existent input produces no output file and no raised
fatal error; an unreadable input raises, but still writes nothing. -/
theorem claim_C8_missing_input (fs : FS) (inp out : String) :
    ((fs inp = .absent ∨ fs inp = .unreadable) →
        (finalize_property_data fs inp out).1 = fs) ∧
      (fs inp = .absent → finalize_property_data fs inp out = (fs, none)) ∧
      (fs INPUT_FILE = .absent → main_run fs = (fs, none)) := by
  refine ⟨?_, ?_, ?_⟩
  · rintro (h | h) <;> simp [finalize_property_data, h]
  · intro h
    simp [finalize_property_data, h]
  · intro h
    simp [main_run, path_exists, h]

/-- C9 (amended): the imputation steps and the final column-selection step
do skip absent columns, but the row filter, the age-mapping step and the
water-parsing step access their columns unguarded and raise a KeyError
when the column is absent. -/
theorem claim_C9_missing_column_amended :
    (∀ (t : Table) (c : String), c ∉ t.cols → imputeNumCol t c = t) ∧
      (∀ (t : Table) (c : String), c ∉ t.cols → imputeCatCol t c = t) ∧
      (∀ t : Table, (reorderCols t).cols
          = final_cols_order.filter (fun c => decide (c ∈ t.cols))) ∧
      (∀ t : Table, "Property_Age" ∉ t.cols →
        mapAge t = .error "KeyError: Property_Age") ∧
      (∀ t : Table, "Water Availability" ∉ t.cols →
        waterStatus t = .error "KeyError: Water Availability") ∧
      (∀ t : Table, ¬ ("Price" ∈ t.cols ∧ "Area_sqft" ∈ t.cols) →
        stageA t = .error "KeyError: Price or Area_sqft") := by
  refine ⟨?_, ?_, fun t => rfl, fun t h => mapAge_err h, fun t h => waterStatus_err h,
    fun t h => stageA_err h⟩
  · intro t c h
    unfold imputeNumCol
    rw [if_neg h]
  · intro t c h
    unfold imputeCatCol
    rw [if_neg h]

/-! ### Counterexamples and concrete witnesses -/

/-- C3 counterexample: on `tC3ex` the numeric column Washrooms exists, its
only (surviving) value is missing, and it is still missing in the output
because the median of an all-missing column is itself missing. -/
theorem claim_C3_counterexample :
    (finalize_table tC3ex).toOption.map (fun u => colView u "Washrooms")
        = some [Value.na] ∧
      (finalize_table tC3ex).toOption.map (fun u => decide ("Washrooms" ∈ u.cols))
        = some true := by
  exact ⟨rfl, rfl⟩

/-- C5 counterexample: a row without a match gets the status "NotSpecified"
(not the literal "Not Specified"), and a match containing a tab keeps that
whitespace character in the output status. -/
theorem claim_C5_counterexample :
    (finalize_table tC5ex).toOption.map (fun u => colView u "Water_Availability_Status")
        = some [Value.str "NotSpecified", Value.str "12\tHours"] ∧
      Value.str "NotSpecified" ≠ Value.str "Not Specified" ∧
      hasWsChar "12\tHours" = true := by
  refine ⟨rfl, by decide, rfl⟩

/-- C6 counterexample: the fixed canonical column list of the source has 28
names, not 27. -/
theorem claim_C6_counterexample :
    final_cols_order.length = 28 ∧ final_cols_order.length ≠ 27 := by
  decide

/-- C9 counterexample: a table lacking the column Property_Age, which the
age-mapping step expects, makes the pipeline raise a KeyError instead of
skipping the step. -/
theorem claim_C9_counterexample :
    "Property_Age" ∉ tC9ex.cols ∧
      finalize_table tC9ex = Except.error "KeyError: Property_Age" := by
  refine ⟨by decide, rfl⟩

theorem claim_C1_witness :
    (getVal rW "Price").isNa = false ∧ (getVal rW "Area_sqft").isNa = false ∧
      valGtZero (getVal rW "Area_sqft") = true :=
  claim_C1_row_filter_invariant tW uW rfl rW (List.get?_mem (show uW.rows.get? 0 = some rW from rfl))

theorem claim_C2_witness :
    getVal rW "Price_per_sqft" = divRound (getVal rW "Price") (getVal rW "Area_sqft") ∧
      divRound (.num 1) (.num 2) = .num (round2 (1 / 2)) :=
  ⟨(claim_C2_price_per_sqft tW uW rfl).1 rW (List.get?_mem (show uW.rows.get? 0 = some rW from rfl)),
   (claim_C2_price_per_sqft tW uW rfl).2 1 2⟩

theorem claim_C3_witness :
    colView uW "Washrooms"
        = (colView aW "Washrooms").map (fillCell (medianVal aW "Washrooms")) ∧
      (getVal rW "Washrooms").isNa = false :=
  ⟨(claim_C3_numeric_imputation_amended tW aW uW rfl rfl "Washrooms"
      (by decide) (by decide)).1,
   (claim_C3_numeric_imputation_amended tW aW uW rfl rfl "Washrooms"
      (by decide) (by decide)).2 (by decide) rW (List.get?_mem (show uW.rows.get? 0 = some rW from rfl))⟩

theorem claim_C4_witness :
    getVal rW "Age_in_Years" ∈
        ([.num 0, .num (5 / 2), .num (15 / 2), .num (25 / 2), .num (35 / 2),
          .num 25, .num (-1)] : List Value) ∧
      ageVal (.str "5 to 10 years old") = .num (15 / 2) ∧
      ageVal (.str "zzz") = .num (-1) ∧
      ageVal .na = .num (-1) :=
  ⟨(claim_C4_age_mapping tW uW rfl).1 rW (List.get?_mem (show uW.rows.get? 0 = some rW from rfl)),
   (claim_C4_age_mapping tW uW rfl).2.1 "5 to 10 years old" (15 / 2) rfl,
   (claim_C4_age_mapping tW uW rfl).2.2.1 "zzz" rfl,
   (claim_C4_age_mapping tW uW rfl).2.2.2 .na rfl⟩

theorem claim_C5_witness :
    colView uW "Water_Availability_Status"
        = (colView aW "Water Availability").map waterVal ∧
      waterVal (.str "no water") = .str "NotSpecified" ∧
      noSpaceVal (waterVal (.str "24 Hours")) = true ∧
      noSpaceVal (getVal rW "Water_Availability_Status") = true :=
  ⟨(claim_C5_water_status_amended tW aW uW rfl rfl).1,
   (claim_C5_water_status_amended tW aW uW rfl rfl).2.1 "no water" rfl,
   (claim_C5_water_status_amended tW aW uW rfl rfl).2.2.2.1 (.str "24 Hours"),
   (claim_C5_water_status_amended tW aW uW rfl rfl).2.2.2.2 rW (List.get?_mem (show uW.rows.get? 0 = some rW from rfl))⟩

theorem claim_C6_witness :
    uW.cols = final_cols_order.filter (fun c => decide (c ∈ (derivedTbl aW).cols)) ∧
      "Property_Age" ∉ uW.cols ∧ "Water Availability" ∉ uW.cols ∧
      final_cols_order.length = 28 :=
  claim_C6_columns_amended tW aW uW rfl rfl

theorem claim_C7_witness :
    colView uW "Zoning" = (colView aW "Zoning").map (fillCell (.str "Not Specified")) ∧
      (getVal rW "Zoning").isNa = false :=
  ⟨(claim_C7_categorical_imputation tW aW uW rfl rfl "Zoning" (by decide) (by decide)).1,
   (claim_C7_categorical_imputation tW aW uW rfl rfl "Zoning" (by decide) (by decide)).2
     rW (List.get?_mem (show uW.rows.get? 0 = some rW from rfl))⟩

theorem claim_C8_witness :
    (finalize_property_data fsAbsent "in.csv" "out.csv").1 = fsAbsent ∧
      finalize_property_data fsAbsent "in.csv" "out.csv" = (fsAbsent, none) ∧
      main_run fsAbsent = (fsAbsent, none) :=
  ⟨(claim_C8_missing_input fsAbsent "in.csv" "out.csv").1 (Or.inl rfl),
   (claim_C8_missing_input fsAbsent "in.csv" "out.csv").2.1 rfl,
   (claim_C8_missing_input fsAbsent "in.csv" "out.csv").2.2 rfl⟩

theorem claim_C9_witness :
    imputeNumCol tC9ex "Washrooms" = tC9ex ∧
      mapAge tC9ex = .error "KeyError: Property_Age" ∧
      stageA { cols := [], rows := [] } = .error "KeyError: Price or Area_sqft" :=
  ⟨claim_C9_missing_column_amended.1 tC9ex "Washrooms" (by decide),
   claim_C9_missing_column_amended.2.2.2.1 tC9ex (by decide),
   claim_C9_missing_column_amended.2.2.2.2.2 { cols := [], rows := [] } (by decide)⟩

theorem claim_C10_witness :
    colView uW "Price" = (survRows tW).map (fun r => getVal r "Price") ∧
      colView uW "Area_sqft" = (survRows tW).map (fun r => getVal r "Area_sqft") ∧
      uW.rows.length = (survRows tW).length :=
  claim_C10_row_preservation tW uW rfl

end PropertyPrices
